import Mathlib

/-
  Verification of the Task-to-Pod compiler (pkg/reconciler/taskrun/resources/pod.go).
  Shallow embedding: Go strings are Lean Strings manipulated through their
  character lists (one Char per byte for the ASCII data handled here), Go maps
  are functions String -> Option String, Go slices are Lists, resource
  quantities are Int, and fallible collaborators return Except String.
-/

set_option maxHeartbeats 1000000

namespace PipelinePod

/- Constants from pod.go. -/

def workspaceDir : String := "/workspace"

def homeDir : String := "/builder/home"

def scriptsDir : String := "/builder/scripts"

def ManagedByLabelKey : String := "app.kubernetes.io/managed-by"

def ManagedByLabelValue : String := "tekton-pipelines"

/-- Modelled from the spec: the invocation-identity label key
(`pipeline.GroupName + pipeline.TaskRunLabelKey`, declared in the external
`pkg/apis/pipeline` package, not under src/). Only its identity matters: it is
a fixed key distinct from the managed-by key. -/
def taskRunLabelKey : String := "tekton.dev/taskRun"

def stepPref : String := "step-"

def unnamedInitContainerPref : String := "step-unnamed-"

def ReadyAnnotationKey : String := "tekton.dev/ready"

def readyAnnotationValue : String := "READY"

def sidecarPref : String := "sidecar-"

/-- Modelled from the spec: the reserved synthesized name of the runtime's
injected entrypoint-carrier container (`entrypoint.InitContainerName`, declared
in the external `pkg/reconciler/taskrun/entrypoint` package, not under src/). -/
def entrypointCarrierBaseName : String := "place-tools"

/- Go string primitives, at the level of the underlying byte/char list. -/

/-- Go `len(s)`. -/
def goLen (s : String) : Nat := s.data.length

/-- Go `s[:n]` (truncation). -/
def goTake (s : String) (n : Nat) : String := String.mk (s.data.take n)

/-- Go `strings.HasPrefix(s, pre)`. -/
def goHasPref (s pre : String) : Bool := pre.data.isPrefixOf s.data

/-- Go `strings.TrimPrefix(s, pre)`. -/
def goTrimPref (s pre : String) : String :=
  if goHasPref s pre then String.mk (s.data.drop (goLen pre)) else s

def maxNameLength : Nat := 63

/-- Modelled from the spec: `names.SimpleNameGenerator.RestrictLength` (external
`pkg/names` package, not under src/), the "length-restricted" naming utility:
a name longer than the 63-character DNS label limit is truncated to 63. -/
def restrictLength (s : String) : String :=
  if maxNameLength < goLen s then goTake s maxNameLength else s

/- Classification / trimming functions from pod.go. -/

/-- `IsContainerStep` from pod.go. -/
def IsContainerStep (name : String) : Bool := goHasPref name stepPref

/-- `IsContainerSidecar` from pod.go. -/
def IsContainerSidecar (name : String) : Bool := goHasPref name sidecarPref

/-- `TrimContainerNamePrefix` from pod.go. -/
def TrimContainerName (containerName : String) : String :=
  goTrimPref containerName stepPref

/-- `TrimSidecarNamePrefix` from pod.go. -/
def TrimSidecarName (containerName : String) : String :=
  goTrimPref containerName sidecarPref

/-- The renaming MakePod applies to a named step (pod.go line 209). -/
def renameStep (name : String) : String := restrictLength (stepPref ++ name)

/-- The renaming MakePod applies to a sidecar (pod.go line 258). -/
def renameSidecar (name : String) : String := restrictLength (sidecarPref ++ name)

/- Data model: the corev1 fragments the compiler manipulates. -/

inductive ResourceName
  | cpu
  | memory
  | ephemeralStorage
deriving DecidableEq

/-- `corev1.ResourceList` restricted to the tracked kinds; `none` = key absent. -/
structure ResourceList where
  cpu : Option Int := none
  memory : Option Int := none
  ephemeralStorage : Option Int := none
deriving DecidableEq

def ResourceList.get (r : ResourceList) : ResourceName → Option Int
  | .cpu => r.cpu
  | .memory => r.memory
  | .ephemeralStorage => r.ephemeralStorage

def ResourceList.set (r : ResourceList) : ResourceName → Int → ResourceList
  | .cpu, v => { r with cpu := some v }
  | .memory, v => { r with memory := some v }
  | .ephemeralStorage, v => { r with ephemeralStorage := some v }

structure EnvVar where
  name : String
  value : String
deriving DecidableEq

structure VolumeMount where
  name : String
  mountPath : String
deriving DecidableEq

structure Volume where
  name : String
  source : String := "emptyDir"
deriving DecidableEq

/-- The fields of `corev1.Container` this compiler reads or writes.
`requests := none` models a nil `Resources.Requests` map. -/
structure Container where
  name : String := ""
  image : String := ""
  tty : Bool := false
  command : List String := []
  args : List String := []
  env : List EnvVar := []
  volumeMounts : List VolumeMount := []
  workingDir : String := ""
  requests : Option ResourceList := none
deriving DecidableEq

/-- `v1alpha1.Step`: a container plus an optional inline script. -/
structure Step where
  container : Container := {}
  script : String := ""
deriving DecidableEq

instance : Inhabited Step := ⟨{}⟩

/-- Go `req, exists := s.Container.Resources.Requests[name]` (nil-map lookup
yields absent). -/
def Step.getRequest (s : Step) (k : ResourceName) : Option Int :=
  s.container.requests.bind (fun r => r.get k)

/- Effectively-const tables from pod.go. -/

def implicitEnvVars : List EnvVar := [{ name := "HOME", value := homeDir }]

def implicitVolumeMounts : List VolumeMount :=
  [{ name := "workspace", mountPath := workspaceDir },
   { name := "home", mountPath := homeDir }]

def implicitVolumes : List Volume :=
  [{ name := "workspace" }, { name := "home" }]

def zeroQty : Int := 0

def scriptsVolume : Volume := { name := "place-scripts" }

def scriptsVolumeMount : VolumeMount :=
  { name := "place-scripts", mountPath := scriptsDir }

/- Script Materializer: argument rewrite (pod.go lines 194-199).
   Go first appends tmpFile, then runs
     for i := 0; i < len(s.Args); i++ {
       if s.Args[i] == "-entrypoint" { s.Args = append(s.Args[:i+1], tmpFile) }
     }
   The slice-aliasing append truncates the list to i+2 elements.  The loop is
   modelled with explicit fuel because for tmpFile = "-entrypoint" the Go loop
   does not terminate; MakePod only ever passes paths under /builder/scripts,
   and the fuel below is enough for every terminating run (at most one
   truncation can happen, after which only tmpFile remains unscanned). -/

def replaceEntrypointLoop (tmpFile : String) : Nat → List String → Nat → List String
  | 0, args, _ => args
  | fuel + 1, args, i =>
    if h : i < args.length then
      if args[i] = "-entrypoint" then
        replaceEntrypointLoop tmpFile fuel (args.take (i + 1) ++ [tmpFile]) (i + 1)
      else
        replaceEntrypointLoop tmpFile fuel args (i + 1)
    else args

/-- The full argument rewrite MakePod performs on a script-bearing step:
append tmpFile, then scan for "-entrypoint" and splice tmpFile in after it. -/
def rewriteScriptArgs (args : List String) (tmpFile : String) : List String :=
  let args1 := args ++ [tmpFile]
  replaceEntrypointLoop tmpFile (args1.length + 1) args1 0

/- Resource Request Consolidator (pod.go lines 349-387). -/

/-- The scan loop of `findMaxResourceRequest`, for one resource kind: walk the
steps carrying (maxIdx, maxReq), initialized by the caller to (-1, zeroQty);
a request replaces the tracked maximum only when strictly greater
(`req.Cmp(maxReq) > 0`). -/
def findMaxAux (k : ResourceName) : List Step → Nat → Int × Int → Int × Int
  | [], _, acc => acc
  | s :: rest, i, acc =>
    match s.getRequest k with
    | some req =>
      if acc.2 < req then findMaxAux k rest (i + 1) ((i : Int), req)
      else findMaxAux k rest (i + 1) acc
    | none => findMaxAux k rest (i + 1) acc

/-- `findMaxResourceRequest` from pod.go, per kind: the index of the step with
the maximum request for that kind, or -1 when no step requests more than 0. -/
def findMaxResourceRequest (steps : List Step) (k : ResourceName) : Int :=
  (findMaxAux k steps 0 (-1, zeroQty)).1

/-- `zeroNonMaxResourceRequests` from pod.go: create the requests map if nil,
then for every tracked kind whose maximum index is not this step's index,
force the request to the zero quantity.  (Go iterates the kinds in map order;
the per-kind writes are independent, so a fixed order is equivalent.) -/
def zeroNonMaxResourceRequests (s : Step) (stepIndex : Nat)
    (maxIdxs : ResourceName → Int) : Step :=
  let reqs := s.container.requests.getD {}
  let reqs := if maxIdxs .cpu ≠ (stepIndex : Int) then reqs.set .cpu zeroQty else reqs
  let reqs := if maxIdxs .memory ≠ (stepIndex : Int) then reqs.set .memory zeroQty else reqs
  let reqs :=
    if maxIdxs .ephemeralStorage ≠ (stepIndex : Int) then reqs.set .ephemeralStorage zeroQty
    else reqs
  { s with container := { s.container with requests := some reqs } }

/-- The consolidation pass as MakePod applies it: `zeroNonMaxResourceRequests`
on each step with its declaration index. -/
def consolidateAux (maxIdxs : ResourceName → Int) : List Step → Nat → List Step
  | [], _ => []
  | s :: rest, i => zeroNonMaxResourceRequests s i maxIdxs :: consolidateAux maxIdxs rest (i + 1)

/-- Resource Request Consolidator: find the per-kind maxima over all steps,
then zero every non-maximum request. -/
def consolidateResourceRequests (steps : List Step) : List Step :=
  consolidateAux (fun k => findMaxResourceRequest steps k) steps 0

/- Mount/Env Merger (pod.go lines 145-155).  `clean` stands for the external
   stdlib function `filepath.Clean`; every property proved below holds for an
   arbitrary pure path normalizer. -/

/-- Add the implicit volume mounts to a step's mounts, unless the user already
mounts at the same normalized path: Go builds the set of cleaned user mount
paths, then appends each implicit mount whose cleaned path is not in the set. -/
def addImplicitMounts (clean : String → String) (mounts : List VolumeMount) :
    List VolumeMount :=
  let requested := mounts.map (fun vm => clean vm.mountPath)
  implicitVolumeMounts.foldl
    (fun acc imp => if requested.contains (clean imp.mountPath) then acc else acc ++ [imp])
    mounts

/- Labels / annotations (pod.go lines 320-347).  A Go map is a partial map;
   its contents are modelled as String → Option String, and map assignment as
   a pointwise update.  The input object's labels/annotations are given as
   association lists (the contents Go ranges over; a Go map holds each key
   once, so iteration order is immaterial). -/

def StrMap : Type := String → Option String

def emptyStrMap : StrMap := fun _ => none

def mapSet (m : StrMap) (k v : String) : StrMap :=
  fun k' => if k' = k then some v else m k'

/-- The TaskRun-level inputs MakePod reads (identity, metadata, overlay). -/
structure TaskRun where
  name : String
  ns : String := ""
  serviceAccountName : String := ""
  labels : List (String × String) := []
  annotations : List (String × String) := []
  podTemplateVolumes : List Volume := []

/-- `makeLabels` from pod.go: managed-by default first, then the TaskRun's own
labels, then the invocation-identity label force-set last. -/
def makeLabels (s : TaskRun) : StrMap :=
  let labels := mapSet emptyStrMap ManagedByLabelKey ManagedByLabelValue
  let labels := s.labels.foldl (fun m p => mapSet m p.1 p.2) labels
  mapSet labels taskRunLabelKey s.name

/-- `makeAnnotations` from pod.go: copy the TaskRun's annotations, then force
the readiness marker to the empty value. -/
def makeAnnotations (s : TaskRun) : StrMap :=
  let annotations := s.annotations.foldl (fun m p => mapSet m p.1 p.2) emptyStrMap
  mapSet annotations ReadyAnnotationKey ""

/- The Unit Assembler: MakePod (pod.go lines 110-292). -/

/-- The TaskSpec fields MakePod reads. -/
structure TaskSpec where
  steps : List Step := []
  sidecars : List Container := []
  volumes : List Volume := []

/-- The external collaborators and injected randomness MakePod consumes:
credentials-init builder, working-dir-init builder, volume validator, random
byte source (already hex-encoded), step-template merge, the random names
produced by RestrictLengthWithRandomSuffix for the place-scripts container and
each script file and heredoc delimiter, and the stdlib path normalizer. -/
structure Collab where
  credsInit : Except String (Option Container × List Volume)
  workingDirInit : Option Container := none
  validateVolumes : List Volume → Option String := fun _ => none
  randBytes : Except String String := .ok "abcdef"
  mergeStepTemplate : List Step → Except String (List Step) := fun ss => .ok ss
  placeScriptsCtrName : String := "place-scripts-xxxxx"
  scriptFileSuffix : Nat → String := fun i => "script-" ++ toString i ++ "-xxxxx"
  heredoc : Nat → String := fun _ => "script-heredoc-randomly-generated-xxxxx"
  filepathClean : String → String := id
  shellImage : String := "shell-image"

/-- `filepath.Join(scriptsDir, ...)` for the i-th step's script file. -/
def scriptFile (c : Collab) (i : Nat) : String :=
  scriptsDir ++ "/" ++ c.scriptFileSuffix i

/-- The shell fragment appended to the place-scripts container's body for one
script (the fmt.Sprintf at pod.go lines 177-182). -/
def scriptFragment (tmpFile heredoc script : String) : String :=
  "tmpfile=\"" ++ tmpFile ++ "\"\n" ++
  "touch ${tmpfile} && chmod +x ${tmpfile}\n" ++
  "cat > ${tmpfile} << \x27" ++ heredoc ++ "\x27\n" ++
  script ++ "\n" ++ heredoc ++ "\n"

/-- The name MakePod gives the i-th step (pod.go lines 206-210): unnamed steps
get the "step-unnamed-i" placeholder, named steps the length-restricted
"step-" prefix. -/
def stepPodName (s : Step) (i : Nat) : String :=
  if s.container.name = "" then unnamedInitContainerPref ++ toString i
  else renameStep s.container.name

/-- The name a step must carry, post-rename, to be reclassified as the
entrypoint-carrier init container (pod.go line 216). -/
def entrypointCarrierName : String := renameStep entrypointCarrierBaseName

/-- All per-step mutations of the loop body except the pod-level accumulation:
prepend implicit env vars, merge implicit mounts, rewrite args and add the
scripts mount when a script is present, default the working directory, and
rename (pod.go lines 141-210). -/
def transformStep (c : Collab) (i : Nat) (s : Step) : Step :=
  let env := implicitEnvVars ++ s.container.env
  let mounts := addImplicitMounts c.filepathClean s.container.volumeMounts
  let args :=
    if s.script = "" then s.container.args
    else rewriteScriptArgs s.container.args (scriptFile c i)
  let mounts := if s.script = "" then mounts else mounts ++ [scriptsVolumeMount]
  let wd := if s.container.workingDir = "" then workspaceDir else s.container.workingDir
  { s with
    container := { s.container with
      env := env, volumeMounts := mounts, args := args, workingDir := wd,
      name := stepPodName s i } }

/-- The accumulator of MakePod's step loop. -/
structure StepLoopState where
  placeScripts : Bool
  scriptsArg : String
  initContainers : List Container
  podSteps : List Step

/-- One iteration of the step loop (pod.go lines 141-222): transform the step,
record its script fragment, and route it either into the init containers (when
its new name is the reserved entrypoint-carrier name) or — with non-maximum
resource requests zeroed — into the pod steps. -/
def processStep (c : Collab) (maxIdxs : ResourceName → Int) (st : StepLoopState)
    (i : Nat) (s : Step) : StepLoopState :=
  let t := transformStep c i s
  let st :=
    if s.script = "" then st
    else { st with
      placeScripts := true,
      scriptsArg := st.scriptsArg ++ scriptFragment (scriptFile c i) (c.heredoc i) s.script }
  if t.container.name = entrypointCarrierName then
    { st with initContainers := st.initContainers ++ [t.container] }
  else
    { st with podSteps := st.podSteps ++ [zeroNonMaxResourceRequests t i maxIdxs] }

def runSteps (c : Collab) (maxIdxs : ResourceName → Int) :
    List Step → Nat → StepLoopState → StepLoopState
  | [], _, st => st
  | s :: rest, i, st => runSteps c maxIdxs rest (i + 1) (processStep c maxIdxs st i s)

/-- The place-scripts init container (pod.go lines 132-139), with the loop's
accumulated body. -/
def placeScriptsContainer (c : Collab) (body : String) : Container :=
  { name := c.placeScriptsCtrName, image := c.shellImage, tty := true,
    command := ["sh"], args := ["-c", body],
    volumeMounts := [scriptsVolumeMount] }

/-- The output Pod.  Passthrough scheduling fields of the pod template (node
selector, tolerations, affinity, security context, runtime class) are copied
verbatim by the source and are not modelled. -/
structure Pod where
  name : String
  ns : String
  ownerTaskRun : String
  labels : StrMap
  annotations : Option StrMap
  restartPolicy : String
  initContainers : List Container
  containers : List Container
  serviceAccountName : String
  volumes : List Volume

instance : Inhabited Pod :=
  ⟨{ name := "", ns := "", ownerTaskRun := "", labels := emptyStrMap,
     annotations := none, restartPolicy := "", initContainers := [],
     containers := [], serviceAccountName := "", volumes := [] }⟩

/-- The init containers present before the step loop runs: the credentials
init container when the collaborator returned one (pod.go lines 116-121), then
the working-dir init container when present (lines 123-125). -/
def credsInitContainers (credsCtr : Option Container) : List Container :=
  match credsCtr with | some ctr => [ctr] | none => []

/-- The secrets volumes are only added when the credentials init container is
present (pod.go lines 118-121). -/
def credsVolumes (credsCtr : Option Container) (secretsVolumes : List Volume) :
    List Volume :=
  match credsCtr with | some _ => secretsVolumes | none => []

def workingDirContainers (wd : Option Container) : List Container :=
  match wd with | some w => [w] | none => []

/-- The state of MakePod's accumulators after the step loop. -/
def makePodLoop (c : Collab) (ts : TaskSpec) (credsCtr : Option Container) :
    StepLoopState :=
  runSteps c (fun k => findMaxResourceRequest ts.steps k) ts.steps 0
    { placeScripts := false, scriptsArg := "",
      initContainers := credsInitContainers credsCtr ++ workingDirContainers c.workingDirInit,
      podSteps := [] }

/-- The volume list MakePod assembles and validates (pod.go lines 224-236):
secrets volumes, declared task volumes, pod-template volumes, implicit
volumes, then the scripts volume when some step had a script. -/
def makePodVolumes (c : Collab) (tr : TaskRun) (ts : TaskSpec)
    (credsCtr : Option Container) (secretsVolumes : List Volume) : List Volume :=
  let volumes := credsVolumes credsCtr secretsVolumes ++ ts.volumes
    ++ tr.podTemplateVolumes ++ implicitVolumes
  if (makePodLoop c ts credsCtr).placeScripts then volumes ++ [scriptsVolume] else volumes

/-- The final init container list (pod.go lines 233-236): the loop's list —
credentials, working-dir, reclassified steps — followed by the place-scripts
container when some step had a script. -/
def makePodInitContainers (c : Collab) (ts : TaskSpec) (credsCtr : Option Container) :
    List Container :=
  let st := makePodLoop c ts credsCtr
  if st.placeScripts then st.initContainers ++ [placeScriptsContainer c st.scriptsArg]
  else st.initContainers

/-- `MakePod` from pod.go, returning the Go pair (pod-or-nil, error-or-nil):
credentials init, working-dir init, the step loop, volume assembly, volume
validation, random pod-name suffix, step-template merge, sidecar renaming,
and final pod construction. -/
def MakePod (c : Collab) (taskRun : TaskRun) (taskSpec : TaskSpec) :
    Option Pod × Option String :=
  match c.credsInit with
  | .error e => (none, some e)
  | .ok (credsCtr, secretsVolumes) =>
    match c.validateVolumes (makePodVolumes c taskRun taskSpec credsCtr secretsVolumes) with
    | some e => (none, some e)
    | none =>
      match c.randBytes with
      | .error e => (none, some e)
      | .ok gibberish =>
        match c.mergeStepTemplate (makePodLoop c taskSpec credsCtr).podSteps with
        | .error e => (none, some e)
        | .ok merged =>
          (some
            { name := taskRun.name ++ "-pod-" ++ gibberish
              ns := taskRun.ns
              ownerTaskRun := taskRun.name
              labels := makeLabels taskRun
              annotations := some (makeAnnotations taskRun)
              restartPolicy := "Never"
              initContainers := makePodInitContainers c taskSpec credsCtr
              containers := merged.map (fun s => s.container) ++
                taskSpec.sidecars.map (fun sc => { sc with name := renameSidecar sc.name })
              serviceAccountName := taskRun.serviceAccountName
              volumes := makePodVolumes c taskRun taskSpec credsCtr secretsVolumes }, none)

/- Readiness Marker (pod.go lines 294-310). -/

/-- Go's map-read-with-default on a possibly-nil annotations map. -/
def podAnnotationLookup (p : Pod) (k : String) : String :=
  ((p.annotations.getD emptyStrMap) k).getD ""

/-- `AddReadyAnnotation` from pod.go.  The third component counts how many
times the supplied update function was invoked (0 or 1); the first component
is the (possibly mutated) in-memory pod, since Go mutates `p` in place and
discards the pod returned by `update`. -/
def AddReadyAnnot (p : Pod) (update : Pod → Except String Pod) :
    Pod × Option String × Nat :=
  let p := match p.annotations with
           | none => { p with annotations := some emptyStrMap }
           | some _ => p
  if podAnnotationLookup p ReadyAnnotationKey ≠ readyAnnotationValue then
    let p := { p with
      annotations := some (mapSet (p.annotations.getD emptyStrMap) ReadyAnnotationKey
        readyAnnotationValue) }
    match update p with
    | .ok _ => (p, none, 1)
    | .error e => (p, some e, 1)
  else (p, none, 0)

/-- The pod as mutated by the not-yet-ready branch of `AddReadyAnnot`:
annotations map created if nil, readiness key set to the canonical value. -/
def markReadyPod (p : Pod) : Pod :=
  { p with
    annotations := some (mapSet (p.annotations.getD emptyStrMap) ReadyAnnotationKey
      readyAnnotationValue) }

/-- How many of the steps, walked from declaration index `i`, are renamed to
the reserved entrypoint-carrier name and hence reclassified as init
containers. -/
def reclassifiedCount : List Step → Nat → Nat
  | [], _ => 0
  | s :: rest, i =>
    (if stepPodName s i = entrypointCarrierName then 1 else 0) + reclassifiedCount rest (i + 1)

/- Concrete inputs used by witness and counterexample theorems. -/

def c1demoSteps : List Step :=
  [{ container := { name := "s0", requests := some { cpu := some 100 } } },
   { container := { name := "s1", requests := some { cpu := some 500 } } },
   { container := { name := "s2", requests := some { cpu := some 200 } } }]

def c3demoCollab : Collab := { credsInit := .ok (none, []) }

def c3demoTaskRun : TaskRun := { name := "tr" }

def c3demoTaskSpec : TaskSpec :=
  { steps := [{ container := { name := "place-tools" } },
              { container := { name := "b" }, script := "echo hi" }] }

def c3demoPod : Pod := ((MakePod c3demoCollab c3demoTaskRun c3demoTaskSpec).1).getD default

def c5demoCollab : Collab := { credsInit := .ok (none, []) }

def c5demoTaskRun : TaskRun := { name := "run5" }

def c5demoTaskSpec : TaskSpec :=
  { steps := [{ container := { name := "a" }, script := "echo hi" },
              { container := { name := "b" } }] }

def c5demoPod : Pod := ((MakePod c5demoCollab c5demoTaskRun c5demoTaskSpec).1).getD default

def c7demoTaskRun : TaskRun :=
  { name := "tr7", labels := [(ManagedByLabelKey, "custom")] }

def c8demoPod : Pod :=
  { name := "p8", ns := "", ownerTaskRun := "tr8", labels := emptyStrMap,
    annotations := some (mapSet emptyStrMap ReadyAnnotationKey ""),
    restartPolicy := "Never", initContainers := [], containers := [],
    serviceAccountName := "", volumes := [] }

def c10demoPod : Pod :=
  { name := "p10", ns := "", ownerTaskRun := "tr10", labels := emptyStrMap,
    annotations := none, restartPolicy := "Never", initContainers := [],
    containers := [], serviceAccountName := "", volumes := [] }

def c9demoCollab : Collab := { credsInit := .error "creds failed" }

def longName59 : String := String.mk (List.replicate 59 'a')

/- Helper lemmas about the Go string primitives. -/

theorem string_data_append (s t : String) : (s ++ t).data = s.data ++ t.data := rfl

theorem string_mk_data (s : String) : String.mk s.data = s := rfl

theorem goLen_append (s t : String) : goLen (s ++ t) = goLen s + goLen t := by
  simp [goLen, string_data_append]

theorem goHasPref_append (p s : String) : goHasPref (p ++ s) p = true := by
  rw [goHasPref, string_data_append]
  exact List.isPrefixOf_iff_prefix.mpr (List.prefix_append _ _)

theorem restrictLength_of_le (s : String) (h : goLen s ≤ maxNameLength) :
    restrictLength s = s := by
  rw [restrictLength, if_neg (Nat.not_lt.mpr h)]

theorem goTrimPref_append (p s : String) : goTrimPref (p ++ s) p = s := by
  rw [goTrimPref, if_pos (goHasPref_append p s), string_data_append]
  show String.mk ((p.data ++ s.data).drop p.data.length) = s
  rw [List.drop_left, string_mk_data]

theorem goHasPref_restrict_append (p s : String) (hp : goLen p ≤ maxNameLength) :
    goHasPref (restrictLength (p ++ s)) p = true := by
  rw [restrictLength]
  split
  · rw [goHasPref, goTake]
    show p.data.isPrefixOf ((p.data ++ s.data).take maxNameLength) = true
    refine List.isPrefixOf_iff_prefix.mpr ?_
    rw [List.take_append_eq_append_take, List.take_of_length_le hp]
    exact List.prefix_append _ _
  · exact goHasPref_append p s

/-- Claim C4 (amended): renaming a step or sidecar always produces a name that
classifies back to the right role, and trimming the prefix recovers the
original logical name exactly when the prefixed name fits within the
63-character length restriction; longer names are truncated by the naming
utility, so the round-trip only returns a truncated prefix of the original. -/
theorem c4_naming_roundtrip (name : String) :
    IsContainerStep (renameStep name) = true ∧
    IsContainerSidecar (renameSidecar name) = true ∧
    (goLen (stepPref ++ name) ≤ maxNameLength →
      TrimContainerName (renameStep name) = name) ∧
    (goLen (sidecarPref ++ name) ≤ maxNameLength →
      TrimSidecarName (renameSidecar name) = name) := by
  refine ⟨goHasPref_restrict_append stepPref name (by decide),
          goHasPref_restrict_append sidecarPref name (by decide), ?_, ?_⟩
  · intro h
    rw [TrimContainerName, renameStep, restrictLength_of_le _ h]
    exact goTrimPref_append _ _
  · intro h
    rw [TrimSidecarName, renameSidecar, restrictLength_of_le _ h]
    exact goTrimPref_append _ _

/-- Claim C4, counterexample: a 59-character logical name is truncated by the
length-restricted renaming, so trimming the step prefix no longer recovers
it. -/
theorem c4_counterexample :
    TrimContainerName (renameStep longName59) ≠ longName59 := by decide

/-- Claim C4, witness: the round-trip theorem applied at short concrete
names. -/
theorem c4_witness :
    TrimContainerName (renameStep "build") = "build" ∧
    IsContainerStep (renameStep "build") = true ∧
    TrimSidecarName (renameSidecar "istio-proxy") = "istio-proxy" :=
  ⟨(c4_naming_roundtrip "build").2.2.1 (by decide),
   (c4_naming_roundtrip "build").1,
   (c4_naming_roundtrip "istio-proxy").2.2.2 (by decide)⟩

/- The entrypoint-splice loop of the Script Materializer. -/

theorem replaceLoop_no_flag (t : String) :
    ∀ (fuel : Nat) (args : List String) (i : Nat),
      (∀ j (hj : j < args.length), i ≤ j → args[j] ≠ "-entrypoint") →
      replaceEntrypointLoop t fuel args i = args := by
  intro fuel
  induction fuel with
  | zero => intro args i _; rfl
  | succ n ih =>
    intro args i h
    unfold replaceEntrypointLoop
    by_cases hlt : i < args.length
    · rw [dif_pos hlt, if_neg (h i hlt (Nat.le_refl i))]
      exact ih args (i + 1) (fun j hj hij => h j hj (Nat.le_of_succ_le hij))
    · rw [dif_neg hlt]

theorem replaceLoop_flag (t : String) (ht : t ≠ "-entrypoint") :
    ∀ (fuel : Nat) (args : List String) (i i0 : Nat) (hi0 : i0 < args.length),
      i ≤ i0 → args[i0] = "-entrypoint" →
      (∀ j (hj : j < args.length), i ≤ j → j < i0 → args[j] ≠ "-entrypoint") →
      i0 - i < fuel →
      replaceEntrypointLoop t fuel args i = args.take (i0 + 1) ++ [t] := by
  intro fuel
  induction fuel with
  | zero => intro args i i0 _ _ _ _ hfuel; omega
  | succ n ih =>
    intro args i i0 hi0 hle hflag hbefore hfuel
    unfold replaceEntrypointLoop
    have hlt : i < args.length := Nat.lt_of_le_of_lt (Nat.le_refl i) (Nat.lt_of_le_of_lt hle hi0)
    rw [dif_pos hlt]
    by_cases heq : i = i0
    · subst heq
      rw [if_pos hflag]
      apply replaceLoop_no_flag
      intro j hj hij
      have hlenT : (args.take (i + 1)).length = i + 1 := by
        rw [List.length_take]; omega
      have hlenA : (args.take (i + 1) ++ [t]).length = i + 2 := by
        rw [List.length_append, hlenT]; rfl
      have hjeq : j = i + 1 := by omega
      subst hjeq
      have hel : (args.take (i + 1) ++ [t])[i + 1] = t := by
        rw [List.getElem_append_right (by omega)]
        simp [hlenT]
      rw [hel]
      exact ht
    · have hne : args[i] ≠ "-entrypoint" := hbefore i hlt (Nat.le_refl i) (by omega)
      rw [if_neg hne]
      exact ih args (i + 1) i0 hi0 (by omega) hflag
        (fun j hj h1 h2 => hbefore j hj (by omega) h2) (by omega)

/-- Claim C2 (amended): for a step with a script, the materialized path is
appended as a trailing argument; but when the argument list contains the
"-entrypoint" flag, the argument after the first occurrence of the flag is
replaced by the materialized path and the list is truncated right there —
all later arguments (including the just-appended trailing path) are dropped,
not preserved. -/
theorem c2_script_arg_rewrite (args : List String) (t : String)
    (ht : t ≠ "-entrypoint") :
    ("-entrypoint" ∉ args → rewriteScriptArgs args t = args ++ [t]) ∧
    (∀ i (hi : i < args.length), args[i] = "-entrypoint" →
      (∀ j (hj : j < args.length), j < i → args[j] ≠ "-entrypoint") →
      rewriteScriptArgs args t = args.take (i + 1) ++ [t]) := by
  constructor
  · intro hnot
    unfold rewriteScriptArgs
    apply replaceLoop_no_flag
    intro j hj _
    have hmem : (args ++ [t])[j] ∈ args ++ [t] := List.getElem_mem hj
    rcases List.mem_append.mp hmem with hmem | hmem
    · exact fun hcontr => hnot (hcontr ▸ hmem)
    · have : (args ++ [t])[j] = t := by simpa using hmem
      rw [this]; exact ht
  · intro i hi hflag hbefore
    unfold rewriteScriptArgs
    have hi1 : i < (args ++ [t]).length := by
      rw [List.length_append]; omega
    have hflag1 : (args ++ [t])[i] = "-entrypoint" := by
      rw [List.getElem_append_left hi]; exact hflag
    rw [replaceLoop_flag t ht ((args ++ [t]).length + 1) (args ++ [t]) 0 i hi1
      (Nat.zero_le i) hflag1
      (fun j hj _ h2 => by
        rw [List.getElem_append_left (Nat.lt_trans h2 hi)]
        exact hbefore j (Nat.lt_trans h2 hi) h2)
      (by omega)]
    congr 1
    rw [List.take_append_eq_append_take]
    have h0 : (i + 1) - args.length = 0 := by omega
    rw [h0, List.take_zero, List.append_nil]

/-- Claim C2, counterexample: with args ["-entrypoint", "old", "keep"] the
code does not merely replace "old" — it also drops "keep", truncating the
list right after the spliced-in path. -/
theorem c2_counterexample :
    rewriteScriptArgs ["-entrypoint", "old", "keep"] "/builder/scripts/s"
      = ["-entrypoint", "/builder/scripts/s"] ∧
    rewriteScriptArgs ["-entrypoint", "old", "keep"] "/builder/scripts/s"
      ≠ ["-entrypoint", "/builder/scripts/s", "keep"] := by
  constructor <;> decide

/-- Claim C2, witness: the rewrite theorem applied at concrete argument
lists, in both the append case and the splice case. -/
theorem c2_witness :
    rewriteScriptArgs ["a", "b"] "/builder/scripts/s" = ["a", "b", "/builder/scripts/s"] ∧
    rewriteScriptArgs ["-entrypoint", "x", "y"] "/builder/scripts/t"
      = ["-entrypoint", "/builder/scripts/t"] :=
  ⟨(c2_script_arg_rewrite ["a", "b"] "/builder/scripts/s" (by decide)).1 (by decide),
   ((c2_script_arg_rewrite ["-entrypoint", "x", "y"] "/builder/scripts/t" (by decide)).2
      0 (by decide) (by decide)
      (fun j _ h2 => absurd h2 (Nat.not_lt_zero j))).trans (by decide)⟩

/- The Mount/Env Merger's conditional-append fold. -/

theorem mountFold_extends (clean : String → String) (r : List String) :
    ∀ (imps : List VolumeMount) (acc : List VolumeMount),
      ∃ tail,
        imps.foldl
          (fun acc imp =>
            if r.contains (clean imp.mountPath) then acc else acc ++ [imp]) acc
          = acc ++ tail := by
  intro imps
  induction imps with
  | nil => intro acc; exact ⟨[], (List.append_nil acc).symm⟩
  | cons x xs ih =>
    intro acc
    simp only [List.foldl]
    by_cases hc : r.contains (clean x.mountPath)
    · rw [if_pos hc]; exact ih acc
    · rw [if_neg hc]
      obtain ⟨tail, htail⟩ := ih (acc ++ [x])
      exact ⟨[x] ++ tail, by rw [htail, List.append_assoc]⟩

theorem mountFold_count (clean : String → String) (r : List String) (imp : VolumeMount)
    (hc : r.contains (clean imp.mountPath) = true) :
    ∀ (imps : List VolumeMount) (acc : List VolumeMount),
      (imps.foldl
        (fun acc imp =>
          if r.contains (clean imp.mountPath) then acc else acc ++ [imp]) acc).count imp
        = acc.count imp := by
  intro imps
  induction imps with
  | nil => intro acc; rfl
  | cons x xs ih =>
    intro acc
    simp only [List.foldl]
    by_cases hcx : r.contains (clean x.mountPath)
    · rw [if_pos hcx]; exact ih acc
    · rw [if_neg hcx]
      rw [ih (acc ++ [x]), List.count_append]
      have hne : imp ≠ x := fun h => hcx (h ▸ hc)
      have : ([x] : List VolumeMount).count imp = 0 := by
        rw [List.count_eq_zero]; simp [hne]
      omega

theorem mountFold_mem (clean : String → String) (r : List String) (imp : VolumeMount)
    (hc : ¬ r.contains (clean imp.mountPath) = true) :
    ∀ (imps : List VolumeMount) (acc : List VolumeMount), imp ∈ imps →
      imp ∈ imps.foldl
        (fun acc imp =>
          if r.contains (clean imp.mountPath) then acc else acc ++ [imp]) acc := by
  intro imps
  induction imps with
  | nil => intro acc h; exact absurd h (List.not_mem_nil imp)
  | cons x xs ih =>
    intro acc hmem
    simp only [List.foldl]
    rcases List.mem_cons.mp hmem with heq | htail
    · subst heq
      rw [if_neg hc]
      obtain ⟨tail, htail⟩ := mountFold_extends clean r xs (acc ++ [imp])
      rw [htail, List.append_assoc]
      exact List.mem_append.mpr (Or.inr (List.mem_append.mpr (Or.inl (List.mem_singleton.mpr rfl))))
    · by_cases hcx : r.contains (clean x.mountPath)
      · rw [if_pos hcx]; exact ih acc htail
      · rw [if_neg hcx]; exact ih (acc ++ [x]) htail

/-- Claim C6: each implicit mount is appended to a step's mounts only when no
user-declared mount targets the same normalized path; user mounts are
preserved unchanged (as the unchanged prefix of the result), and when a user
mount matches an implicit path the implicit mount is not duplicated. -/
theorem c6_mount_merge (clean : String → String) (mounts : List VolumeMount) :
    (addImplicitMounts clean mounts).take mounts.length = mounts ∧
    (∀ imp ∈ implicitVolumeMounts,
      ((∃ vm ∈ mounts, clean vm.mountPath = clean imp.mountPath) →
        (addImplicitMounts clean mounts).count imp = mounts.count imp) ∧
      ((∀ vm ∈ mounts, clean vm.mountPath ≠ clean imp.mountPath) →
        imp ∈ addImplicitMounts clean mounts)) := by
  constructor
  · obtain ⟨tail, htail⟩ :=
      mountFold_extends clean (mounts.map fun vm => clean vm.mountPath)
        implicitVolumeMounts mounts
    simp only [addImplicitMounts]
    rw [htail]
    exact List.take_left mounts tail
  · intro imp himp
    constructor
    · rintro ⟨vm, hvm, hpath⟩
      have hc : (mounts.map fun vm => clean vm.mountPath).contains
          (clean imp.mountPath) = true := by
        have hmem : clean imp.mountPath ∈ mounts.map (fun vm => clean vm.mountPath) :=
          List.mem_map.mpr ⟨vm, hvm, hpath⟩
        exact List.elem_iff.mpr hmem
      simp only [addImplicitMounts]
      exact mountFold_count clean _ imp hc implicitVolumeMounts mounts
    · intro hall
      have hc : ¬ (mounts.map fun vm => clean vm.mountPath).contains
          (clean imp.mountPath) = true := by
        intro hcon
        obtain ⟨vm, hvm, hpath⟩ := List.mem_map.mp (List.elem_iff.mp hcon)
        exact hall vm hvm hpath
      simp only [addImplicitMounts]
      exact mountFold_mem clean _ imp hc implicitVolumeMounts mounts himp

/-- Claim C6, witness: the merge theorem applied for the workspace implicit
mount at a concrete step that declares its own mount at /workspace. -/
theorem c6_witness :
    (addImplicitMounts id
        [{ name := "custom", mountPath := "/workspace" }]).count
      { name := "workspace", mountPath := workspaceDir } = 0 ∧
    ({ name := "home", mountPath := homeDir } : VolumeMount) ∈
      addImplicitMounts id [{ name := "custom", mountPath := "/workspace" }] :=
  ⟨((c6_mount_merge id [{ name := "custom", mountPath := "/workspace" }]).2
      { name := "workspace", mountPath := workspaceDir } (by decide)).1
      ⟨{ name := "custom", mountPath := "/workspace" }, by decide, by decide⟩ |>.trans
      (by decide),
   ((c6_mount_merge id [{ name := "custom", mountPath := "/workspace" }]).2
      { name := "home", mountPath := homeDir } (by decide)).2
      (by intro vm hvm; simp at hvm; subst hvm; decide)⟩

/- Go map updates and makeLabels. -/

theorem mapSet_self (m : StrMap) (k v : String) : mapSet m k v k = some v := by
  simp [mapSet]

theorem mapSet_other (m : StrMap) (k v k' : String) (h : k' ≠ k) :
    mapSet m k v k' = m k' := by
  simp [mapSet, h]

theorem foldl_mapSet_lookup (k : String) :
    ∀ (l : List (String × String)) (init : StrMap),
      (l.foldl (fun m p => mapSet m p.1 p.2) init) k =
        match l.reverse.find? (fun p => p.1 == k) with
        | some p => some p.2
        | none => init k := by
  intro l
  induction l with
  | nil => intro init; rfl
  | cons p tl ih =>
    intro init
    simp only [List.foldl]
    rw [ih (mapSet init p.1 p.2), List.reverse_cons, List.find?_append]
    cases hf : tl.reverse.find? (fun q => q.1 == k)
    · simp only [Option.or]
      by_cases hk : p.1 = k
      · subst hk
        simp [List.find?, mapSet_self]
      · have hkb : (p.1 == k) = false := by simp [hk]
        simp [List.find?, hkb, mapSet_other init p.1 p.2 k (Ne.symm hk)]
    · simp only [Option.or]

/-- Claim C7: the output labels always map the invocation-identity key to the
TaskRun's name (never overridable), and map the managed-by key to the last
user-supplied value when the TaskRun carries one, else to the fixed
default. -/
theorem c7_labels (tr : TaskRun) :
    makeLabels tr taskRunLabelKey = some tr.name ∧
    (∀ v : String × String,
      tr.labels.reverse.find? (fun p => p.1 == ManagedByLabelKey) = some v →
      makeLabels tr ManagedByLabelKey = some v.2) ∧
    (tr.labels.reverse.find? (fun p => p.1 == ManagedByLabelKey) = none →
      makeLabels tr ManagedByLabelKey = some ManagedByLabelValue) := by
  refine ⟨?_, ?_, ?_⟩
  · exact mapSet_self _ _ _
  · intro v hv
    show mapSet _ taskRunLabelKey tr.name ManagedByLabelKey = some v.2
    rw [mapSet_other _ _ _ _ (by decide), foldl_mapSet_lookup, hv]
  · intro hn
    show mapSet _ taskRunLabelKey tr.name ManagedByLabelKey = some ManagedByLabelValue
    rw [mapSet_other _ _ _ _ (by decide), foldl_mapSet_lookup, hn]
    exact mapSet_self _ _ _

/-- Claim C7, witness: the labels theorem at a TaskRun that overrides
managed-by, and at one that does not. -/
theorem c7_witness :
    makeLabels c7demoTaskRun taskRunLabelKey = some "tr7" ∧
    makeLabels c7demoTaskRun ManagedByLabelKey = some "custom" ∧
    makeLabels { name := "plain" } ManagedByLabelKey = some ManagedByLabelValue :=
  ⟨(c7_labels c7demoTaskRun).1,
   (c7_labels c7demoTaskRun).2.1 (ManagedByLabelKey, "custom") (by decide),
   (c7_labels { name := "plain" }).2.2 (by decide)⟩

/- Readiness Marker. -/

theorem addReady_match_comm (A : Pod) (u : Except String Pod) :
    (match u with
      | .ok _ => (A, (none : Option String), (1 : Nat))
      | .error e => (A, some e, 1)) =
    (A, (match u with | .ok _ => none | .error e => some e), 1) := by
  cases u <;> rfl

theorem addReady_of_not_ready (p : Pod) (update : Pod → Except String Pod)
    (h : podAnnotationLookup p ReadyAnnotationKey ≠ readyAnnotationValue) :
    AddReadyAnnot p update =
      (markReadyPod p,
       (match update (markReadyPod p) with
        | .ok _ => none
        | .error e => some e),
       1) := by
  rcases hann : p.annotations with _ | m
  · have h' : podAnnotationLookup { p with annotations := some emptyStrMap }
        ReadyAnnotationKey ≠ readyAnnotationValue := by
      simp [podAnnotationLookup, emptyStrMap]
      decide
    simp only [AddReadyAnnot, hann, if_pos h']
    have hmark : markReadyPod p =
        { p with annotations := some (mapSet emptyStrMap ReadyAnnotationKey
            readyAnnotationValue) } := by
      simp [markReadyPod, hann]
    rw [hmark]
    simp only [Option.getD]
    exact addReady_match_comm _ _
  · have h' : podAnnotationLookup p ReadyAnnotationKey ≠ readyAnnotationValue := h
    have hmark : markReadyPod p =
        { p with annotations := some (mapSet m ReadyAnnotationKey
            readyAnnotationValue) } := by
      simp [markReadyPod, hann]
    simp only [AddReadyAnnot, hann]
    rw [if_pos h', hmark]
    simp only [Option.getD]
    exact addReady_match_comm _ _

theorem addReady_of_ready (p : Pod) (update : Pod → Except String Pod)
    (h : podAnnotationLookup p ReadyAnnotationKey = readyAnnotationValue) :
    (AddReadyAnnot p update).2.1 = none ∧ (AddReadyAnnot p update).2.2 = 0 := by
  rcases hann : p.annotations with _ | m
  · exact absurd h (by simp [podAnnotationLookup, hann, emptyStrMap]; decide)
  · have h' : ¬ podAnnotationLookup p ReadyAnnotationKey ≠ readyAnnotationValue :=
      fun hne => hne h
    simp only [AddReadyAnnot, hann]
    rw [if_neg h']
    exact ⟨rfl, rfl⟩

theorem markReadyPod_lookup (p : Pod) :
    podAnnotationLookup (markReadyPod p) ReadyAnnotationKey = readyAnnotationValue := by
  simp [podAnnotationLookup, markReadyPod, mapSet_self]

/-- Claim C8: readiness marking is idempotent — on a pod whose readiness
annotation does not hold the canonical value, two successive calls invoke the
update function exactly once in total; on an already-marked pod a call invokes
it zero times and reports no error. -/
theorem c8_ready_idempotent (p : Pod) (update : Pod → Except String Pod) :
    (podAnnotationLookup p ReadyAnnotationKey ≠ readyAnnotationValue →
      (AddReadyAnnot p update).2.2
        + (AddReadyAnnot (AddReadyAnnot p update).1 update).2.2 = 1) ∧
    (podAnnotationLookup p ReadyAnnotationKey = readyAnnotationValue →
      (AddReadyAnnot p update).2.2 = 0 ∧ (AddReadyAnnot p update).2.1 = none) := by
  constructor
  · intro h
    rw [addReady_of_not_ready p update h]
    have h2 := addReady_of_ready (markReadyPod p) update (markReadyPod_lookup p)
    show 1 + (AddReadyAnnot (markReadyPod p) update).2.2 = 1
    rw [h2.2]
  · intro h
    have h2 := addReady_of_ready p update h
    exact ⟨h2.2, h2.1⟩

/-- Claim C8, witness: the idempotence theorem at a concrete pod carrying the
empty-valued readiness placeholder, with an always-succeeding update. -/
theorem c8_witness :
    (AddReadyAnnot c8demoPod Except.ok).2.2
      + (AddReadyAnnot (AddReadyAnnot c8demoPod Except.ok).1 Except.ok).2.2 = 1 ∧
    (AddReadyAnnot (AddReadyAnnot c8demoPod Except.ok).1 Except.ok).2.1 = none :=
  ⟨(c8_ready_idempotent c8demoPod Except.ok).1 (by decide),
   ((c8_ready_idempotent (AddReadyAnnot c8demoPod Except.ok).1 Except.ok).2 (by decide)).2⟩

/-- Claim C10: the in-memory pod is mutated before the update call — when the
update function fails, the returned pod already carries the canonical ready
value, the error is propagated, and a subsequent call on that pod performs
zero update calls and no error (the failed persistence is never retried). -/
theorem c10_mark_persists_on_error (p : Pod) (update : Pod → Except String Pod)
    (e : String)
    (h : podAnnotationLookup p ReadyAnnotationKey ≠ readyAnnotationValue)
    (herr : update (markReadyPod p) = .error e) :
    (AddReadyAnnot p update).1 = markReadyPod p ∧
    (AddReadyAnnot p update).2.1 = some e ∧
    podAnnotationLookup (AddReadyAnnot p update).1 ReadyAnnotationKey
      = readyAnnotationValue ∧
    (AddReadyAnnot (AddReadyAnnot p update).1 update).2.2 = 0 ∧
    (AddReadyAnnot (AddReadyAnnot p update).1 update).2.1 = none := by
  rw [addReady_of_not_ready p update h, herr]
  have h2 := addReady_of_ready (markReadyPod p) update (markReadyPod_lookup p)
  exact ⟨rfl, rfl, markReadyPod_lookup p, h2.2, h2.1⟩

/-- Claim C10, witness: the theorem at a concrete pod with nil annotations and
an always-failing update function. -/
theorem c10_witness :
    (AddReadyAnnot c10demoPod (fun _ => .error "boom")).2.1 = some "boom" ∧
    podAnnotationLookup (AddReadyAnnot c10demoPod (fun _ => .error "boom")).1
      ReadyAnnotationKey = readyAnnotationValue ∧
    (AddReadyAnnot (AddReadyAnnot c10demoPod (fun _ => .error "boom")).1
      (fun _ => .error "boom")).2.2 = 0 :=
  ⟨(c10_mark_persists_on_error c10demoPod (fun _ => .error "boom") "boom"
      (by decide) rfl).2.1,
   (c10_mark_persists_on_error c10demoPod (fun _ => .error "boom") "boom"
      (by decide) rfl).2.2.1,
   (c10_mark_persists_on_error c10demoPod (fun _ => .error "boom") "boom"
      (by decide) rfl).2.2.2.1⟩

/- Unit Assembler error propagation. -/

/-- Claim C9: compilation is all-or-nothing — MakePod returns a pod exactly
when it returns no error, and an error from the credentials collaborator, the
volume validator, the random byte source or the step-template merge is
propagated (first encountered) with a nil pod. -/
theorem c9_all_or_nothing (c : Collab) (tr : TaskRun) (ts : TaskSpec) :
    ((MakePod c tr ts).1 = none ↔ (MakePod c tr ts).2 ≠ none) ∧
    (∀ e, c.credsInit = .error e → MakePod c tr ts = (none, some e)) ∧
    (∀ e copt sv, c.credsInit = .ok (copt, sv) →
      (∀ vs, c.validateVolumes vs = some e) →
      MakePod c tr ts = (none, some e)) ∧
    (∀ e copt sv, c.credsInit = .ok (copt, sv) →
      (∀ vs, c.validateVolumes vs = none) → c.randBytes = .error e →
      MakePod c tr ts = (none, some e)) ∧
    (∀ e g copt sv, c.credsInit = .ok (copt, sv) →
      (∀ vs, c.validateVolumes vs = none) → c.randBytes = .ok g →
      (∀ ss, c.mergeStepTemplate ss = .error e) →
      MakePod c tr ts = (none, some e)) := by
  refine ⟨?_, ?_, ?_, ?_, ?_⟩
  · rcases hc : c.credsInit with e | ⟨copt, sv⟩
    · simp [MakePod, hc]
    · rcases hv : c.validateVolumes (makePodVolumes c tr ts copt sv) with _ | e
      · rcases hr : c.randBytes with e | g
        · simp [MakePod, hc, hv, hr]
        · rcases hm : c.mergeStepTemplate (makePodLoop c ts copt).podSteps with e | merged
          · simp [MakePod, hc, hv, hr, hm]
          · simp [MakePod, hc, hv, hr, hm]
      · simp [MakePod, hc, hv]
  · intro e hc
    simp [MakePod, hc]
  · intro e copt sv hc hv
    simp [MakePod, hc, hv _]
  · intro e copt sv hc hv hr
    simp [MakePod, hc, hv _, hr]
  · intro e g copt sv hc hv hr hm
    simp [MakePod, hc, hv _, hr, hm _]

/-- Claim C9, witness: a failing credentials collaborator yields a nil pod and
the collaborator's error. -/
theorem c9_witness :
    MakePod c9demoCollab { name := "tr9" } {} = (none, some "creds failed") :=
  (c9_all_or_nothing c9demoCollab { name := "tr9" } {}).2.1 "creds failed" rfl

/- Resource Request Consolidator. -/

theorem zeroNonMax_getRequest (s : Step) (i : Nat) (m : ResourceName → Int)
    (k : ResourceName) :
    (zeroNonMaxResourceRequests s i m).getRequest k =
      if m k = (i : Int) then s.getRequest k else some 0 := by
  rcases hreq : s.container.requests with _ | r <;> cases k <;>
    simp only [zeroNonMaxResourceRequests, Step.getRequest, hreq, Option.getD,
      Option.bind, zeroQty] <;>
    split_ifs <;>
    simp_all [ResourceList.get, ResourceList.set]

theorem consolidateAux_length (m : ResourceName → Int) :
    ∀ (l : List Step) (i : Nat), (consolidateAux m l i).length = l.length := by
  intro l
  induction l with
  | nil => intro i; rfl
  | cons s rest ih => intro i; simp [consolidateAux, ih]

theorem consolidateAux_getD (m : ResourceName → Int) :
    ∀ (l : List Step) (i0 j : Nat), j < l.length →
      (consolidateAux m l i0).getD j default
        = zeroNonMaxResourceRequests (l.getD j default) (i0 + j) m := by
  intro l
  induction l with
  | nil => intro i0 j h; exact absurd h (by simp)
  | cons s rest ih =>
    intro i0 j h
    cases j with
    | zero => simp [consolidateAux]
    | succ j' =>
      simp only [consolidateAux, List.getD_cons_succ]
      rw [ih (i0 + 1) j' (by simpa using Nat.lt_of_succ_lt_succ h)]
      have harith : i0 + 1 + j' = i0 + (j' + 1) := by omega
      rw [harith]

theorem findMaxAux_spec (k : ResourceName) :
    ∀ (l : List Step) (start : Nat) (m r : Int),
      (findMaxAux k l start (m, r) = (m, r) ∧
        ∀ j, j < l.length → ∀ q, (l.getD j default).getRequest k = some q → q ≤ r)
      ∨ (∃ j, j < l.length ∧
          (findMaxAux k l start (m, r)).1 = ((start + j : Nat) : Int) ∧
          (l.getD j default).getRequest k = some (findMaxAux k l start (m, r)).2 ∧
          r < (findMaxAux k l start (m, r)).2 ∧
          (∀ j2, j2 < l.length → j2 < j → ∀ q,
            (l.getD j2 default).getRequest k = some q →
            q < (findMaxAux k l start (m, r)).2) ∧
          (∀ j2, j2 < l.length → ∀ q,
            (l.getD j2 default).getRequest k = some q →
            q ≤ (findMaxAux k l start (m, r)).2)) := by
  intro l
  induction l with
  | nil =>
    intro start m r
    left
    exact ⟨rfl, fun j hj => absurd hj (by simp)⟩
  | cons s rest ih =>
    intro start m r
    rcases hreq : s.getRequest k with _ | req
    · have hred : findMaxAux k (s :: rest) start (m, r)
          = findMaxAux k rest (start + 1) (m, r) := by
        simp [findMaxAux, hreq]
      rcases ih (start + 1) m r with ⟨heq, hb⟩ | ⟨j, hj, h1, h2, h3, h4, h5⟩
      · left
        rw [hred]
        refine ⟨heq, ?_⟩
        intro j hjlen q hq
        cases j with
        | zero => rw [List.getD_cons_zero] at hq; rw [hreq] at hq; exact absurd hq (by simp)
        | succ j' =>
          rw [List.getD_cons_succ] at hq
          exact hb j' (by simpa using Nat.lt_of_succ_lt_succ hjlen) q hq
      · right
        refine ⟨j + 1, by simpa using Nat.succ_lt_succ hj, ?_, ?_, ?_, ?_, ?_⟩
        · rw [hred, h1]; congr 1; omega
        · rw [List.getD_cons_succ, hred]; exact h2
        · rw [hred]; exact h3
        · intro j2 hj2 hlt q hq
          cases j2 with
          | zero => rw [List.getD_cons_zero, hreq] at hq; exact absurd hq (by simp)
          | succ j2' =>
            rw [List.getD_cons_succ] at hq
            rw [hred]
            exact h4 j2' (by simpa using Nat.lt_of_succ_lt_succ hj2)
              (Nat.lt_of_succ_lt_succ hlt) q hq
        · intro j2 hj2 q hq
          cases j2 with
          | zero => rw [List.getD_cons_zero, hreq] at hq; exact absurd hq (by simp)
          | succ j2' =>
            rw [List.getD_cons_succ] at hq
            rw [hred]
            exact h5 j2' (by simpa using Nat.lt_of_succ_lt_succ hj2) q hq
    · by_cases hcmp : r < req
      · have hred : findMaxAux k (s :: rest) start (m, r)
            = findMaxAux k rest (start + 1) ((start : Int), req) := by
          simp [findMaxAux, hreq, hcmp]
        rcases ih (start + 1) (start : Int) req with ⟨heq, hb⟩ | ⟨j, hj, h1, h2, h3, h4, h5⟩
        · right
          refine ⟨0, by simp, ?_, ?_, ?_, ?_, ?_⟩
          · rw [hred, heq]; simp
          · rw [hred, heq, List.getD_cons_zero]; exact hreq
          · rw [hred, heq]; exact hcmp
          · intro j2 _ hlt _ _; omega
          · intro j2 hj2 q hq
            cases j2 with
            | zero =>
              rw [List.getD_cons_zero, hreq] at hq
              rw [hred, heq]
              cases hq
              exact le_refl req
            | succ j2' =>
              rw [List.getD_cons_succ] at hq
              rw [hred, heq]
              exact hb j2' (by simpa using Nat.lt_of_succ_lt_succ hj2) q hq
        · right
          refine ⟨j + 1, by simpa using Nat.succ_lt_succ hj, ?_, ?_, ?_, ?_, ?_⟩
          · rw [hred, h1]; congr 1; omega
          · rw [List.getD_cons_succ, hred]; exact h2
          · rw [hred]; exact lt_trans hcmp h3
          · intro j2 hj2 hlt q hq
            cases j2 with
            | zero =>
              rw [List.getD_cons_zero, hreq] at hq
              rw [hred]
              cases hq
              exact h3
            | succ j2' =>
              rw [List.getD_cons_succ] at hq
              rw [hred]
              exact h4 j2' (by simpa using Nat.lt_of_succ_lt_succ hj2)
                (Nat.lt_of_succ_lt_succ hlt) q hq
          · intro j2 hj2 q hq
            cases j2 with
            | zero =>
              rw [List.getD_cons_zero, hreq] at hq
              rw [hred]
              cases hq
              exact le_of_lt h3
            | succ j2' =>
              rw [List.getD_cons_succ] at hq
              rw [hred]
              exact h5 j2' (by simpa using Nat.lt_of_succ_lt_succ hj2) q hq
      · have hred : findMaxAux k (s :: rest) start (m, r)
            = findMaxAux k rest (start + 1) (m, r) := by
          simp [findMaxAux, hreq, hcmp]
        have hreqle : req ≤ r := not_lt.mp hcmp
        rcases ih (start + 1) m r with ⟨heq, hb⟩ | ⟨j, hj, h1, h2, h3, h4, h5⟩
        · left
          rw [hred]
          refine ⟨heq, ?_⟩
          intro j hjlen q hq
          cases j with
          | zero =>
            rw [List.getD_cons_zero, hreq] at hq
            cases hq
            exact hreqle
          | succ j' =>
            rw [List.getD_cons_succ] at hq
            exact hb j' (by simpa using Nat.lt_of_succ_lt_succ hjlen) q hq
        · right
          refine ⟨j + 1, by simpa using Nat.succ_lt_succ hj, ?_, ?_, ?_, ?_, ?_⟩
          · rw [hred, h1]; congr 1; omega
          · rw [List.getD_cons_succ, hred]; exact h2
          · rw [hred]; exact h3
          · intro j2 hj2 hlt q hq
            cases j2 with
            | zero =>
              rw [List.getD_cons_zero, hreq] at hq
              rw [hred]
              cases hq
              exact lt_of_le_of_lt hreqle h3
            | succ j2' =>
              rw [List.getD_cons_succ] at hq
              rw [hred]
              exact h4 j2' (by simpa using Nat.lt_of_succ_lt_succ hj2)
                (Nat.lt_of_succ_lt_succ hlt) q hq
          · intro j2 hj2 q hq
            cases j2 with
            | zero =>
              rw [List.getD_cons_zero, hreq] at hq
              rw [hred]
              cases hq
              exact le_of_lt (lt_of_le_of_lt hreqle h3)
            | succ j2' =>
              rw [List.getD_cons_succ] at hq
              rw [hred]
              exact h5 j2' (by simpa using Nat.lt_of_succ_lt_succ hj2) q hq

theorem findMax_spec (steps : List Step) (k : ResourceName) :
    (findMaxResourceRequest steps k = -1 ∧
      ∀ j, j < steps.length → ∀ q,
        (steps.getD j default).getRequest k = some q → q ≤ 0)
    ∨ (∃ j, j < steps.length ∧ findMaxResourceRequest steps k = (j : Int) ∧
        ∃ rq, (steps.getD j default).getRequest k = some rq ∧ 0 < rq ∧
          (∀ j2, j2 < steps.length → j2 < j → ∀ q,
            (steps.getD j2 default).getRequest k = some q → q < rq) ∧
          (∀ j2, j2 < steps.length → ∀ q,
            (steps.getD j2 default).getRequest k = some q → q ≤ rq)) := by
  rcases findMaxAux_spec k steps 0 (-1) 0 with ⟨heq, hb⟩ | ⟨j, hj, h1, h2, h3, h4, h5⟩
  · left
    constructor
    · show (findMaxAux k steps 0 (-1, 0)).1 = -1
      rw [heq]
    · exact hb
  · right
    refine ⟨j, hj, ?_, (findMaxAux k steps 0 (-1, 0)).2, h2, h3, h4, h5⟩
    show (findMaxAux k steps 0 (-1, 0)).1 = (j : Int)
    rw [h1]
    congr 1
    omega

theorem countP_le_one_of_unique {α : Type} [Inhabited α] (p : α → Bool) (j0 : Nat) :
    ∀ (l : List α) (ofs : Nat),
      (∀ i, i < l.length → p (l.getD i default) = true → ofs + i = j0) →
      l.countP p ≤ 1 := by
  intro l
  induction l with
  | nil => intro ofs _; simp
  | cons a t ih =>
    intro ofs h
    rw [List.countP_cons]
    by_cases hpa : p a = true
    · have h0 : ofs = j0 := by
        have := h 0 (by simp) (by rw [List.getD_cons_zero]; exact hpa)
        omega
      have htail : t.countP p = 0 := by
        rw [List.countP_eq_zero]
        intro x hx hpx
        obtain ⟨i, hi, hxi⟩ := List.mem_iff_getElem.mp hx
        have hgd : t.getD i default = x := by
          rw [List.getD_eq_getElem t default hi]; exact hxi
        have := h (i + 1) (by simpa using Nat.succ_lt_succ hi)
          (by rw [List.getD_cons_succ, hgd]; exact hpx)
        omega
      rw [htail]
      simp [hpa]
    · have hpa' : p a = false := eq_false_of_ne_true hpa
      have htail := ih (ofs + 1) (fun i hi hp => by
        have := h (i + 1) (by simpa using Nat.succ_lt_succ hi)
          (by rw [List.getD_cons_succ]; exact hp)
        omega)
      simpa [hpa'] using htail

/-- Claim C1: after consolidation, for each tracked resource kind at most one
step carries a non-zero request; every non-maximum step's request is forced to
the zero quantity; the retained step is the earliest one whose declared
request strictly exceeds every earlier step's (ties keep the earliest, and its
request is positive and maximal); and when no step declares a positive
request, every step's request for that kind becomes the zero quantity. -/
theorem c1_resource_consolidation (steps : List Step) (k : ResourceName) :
    ((consolidateResourceRequests steps).countP
        (fun s => decide (s.getRequest k ≠ some 0)) ≤ 1) ∧
    (∀ i, i < steps.length → (i : Int) ≠ findMaxResourceRequest steps k →
      ((consolidateResourceRequests steps).getD i default).getRequest k = some 0) ∧
    (∀ i, i < steps.length → (i : Int) = findMaxResourceRequest steps k →
      ((consolidateResourceRequests steps).getD i default).getRequest k
          = (steps.getD i default).getRequest k ∧
      ∃ rq, (steps.getD i default).getRequest k = some rq ∧ 0 < rq ∧
        (∀ j, j < steps.length → j < i → ∀ q,
          (steps.getD j default).getRequest k = some q → q < rq) ∧
        (∀ j, j < steps.length → ∀ q,
          (steps.getD j default).getRequest k = some q → q ≤ rq)) ∧
    ((∀ i, i < steps.length → ∀ q,
        (steps.getD i default).getRequest k = some q → q ≤ 0) →
      ∀ i, i < steps.length →
        ((consolidateResourceRequests steps).getD i default).getRequest k = some 0) := by
  have hgd : ∀ i, i < steps.length →
      (consolidateResourceRequests steps).getD i default
        = zeroNonMaxResourceRequests (steps.getD i default) i
            (fun k' => findMaxResourceRequest steps k') := by
    intro i hi
    rw [consolidateResourceRequests, consolidateAux_getD _ steps 0 i hi]
    have : 0 + i = i := by omega
    rw [this]
  have hlen : (consolidateResourceRequests steps).length = steps.length := by
    rw [consolidateResourceRequests, consolidateAux_length]
  have hzero : ∀ i, i < steps.length → (i : Int) ≠ findMaxResourceRequest steps k →
      ((consolidateResourceRequests steps).getD i default).getRequest k = some 0 := by
    intro i hi hne
    rw [hgd i hi, zeroNonMax_getRequest]
    exact if_neg (fun h => hne h.symm)
  refine ⟨?_, hzero, ?_, ?_⟩
  · rcases findMax_spec steps k with ⟨hm, _⟩ | ⟨j, hjlen, hm, rq, hrq, hpos, hstrict, hall⟩
    · have : (consolidateResourceRequests steps).countP
          (fun s => decide (s.getRequest k ≠ some 0)) = 0 := by
        rw [List.countP_eq_zero]
        intro x hx
        obtain ⟨i, hi, hxi⟩ := List.mem_iff_getElem.mp hx
        have hgd2 : (consolidateResourceRequests steps).getD i default = x := by
          rw [List.getD_eq_getElem _ default hi]; exact hxi
        have hilen : i < steps.length := by rw [← hlen]; exact hi
        have hx0 : x.getRequest k = some 0 := by
          rw [← hgd2]
          exact hzero i hilen (by rw [hm]; omega)
        simp [hx0]
      omega
    · apply countP_le_one_of_unique _ j _ 0
      intro i hi hp
      have hilen : i < steps.length := by rw [← hlen]; exact hi
      by_cases hij : i = j
      · omega
      · exfalso
        have h0 := hzero i hilen (by rw [hm]; intro hcast; exact hij (by exact_mod_cast hcast))
        rw [h0] at hp
        simp at hp
  · intro i hi heq
    rcases findMax_spec steps k with ⟨hm, _⟩ | ⟨j, hjlen, hm, rq, hrq, hpos, hstrict, hall⟩
    · rw [hm] at heq; omega
    · rw [hm] at heq
      have hij : i = j := by exact_mod_cast heq
      subst hij
      constructor
      · rw [hgd i hi, zeroNonMax_getRequest]
        exact if_pos (by rw [hm])
      · exact ⟨rq, hrq, hpos, hstrict, hall⟩
  · intro hle i hi
    rcases findMax_spec steps k with ⟨hm, _⟩ | ⟨j, hjlen, hm, rq, hrq, hpos, _, _⟩
    · exact hzero i hi (by rw [hm]; omega)
    · exact absurd (hle j hjlen rq hrq) (not_le.mpr hpos)

/-- Claim C1, witness: the consolidation theorem applied at the concrete
three-step CPU scenario (requests 100, 500, 200): a non-maximum step is
zeroed, the maximum step (index 1) retains its request. -/
theorem c1_witness :
    ((consolidateResourceRequests c1demoSteps).getD 0 default).getRequest .cpu
      = some 0 ∧
    ((consolidateResourceRequests c1demoSteps).getD 1 default).getRequest .cpu
      = (c1demoSteps.getD 1 default).getRequest .cpu :=
  ⟨(c1_resource_consolidation c1demoSteps .cpu).2.1 0 (by decide) (by decide),
   ((c1_resource_consolidation c1demoSteps .cpu).2.2.1 1 (by decide) (by decide)).1⟩

/- The step loop of the Unit Assembler: routing and the place-scripts flag. -/

theorem transformStep_name (c : Collab) (i : Nat) (s : Step) :
    (transformStep c i s).container.name = stepPodName s i := rfl

theorem processStep_initContainers (c : Collab) (m : ResourceName → Int)
    (st : StepLoopState) (i : Nat) (s : Step) :
    (processStep c m st i s).initContainers =
      st.initContainers ++
        (if stepPodName s i = entrypointCarrierName
          then [(transformStep c i s).container] else []) := by
  simp only [processStep, transformStep_name]
  split_ifs <;> simp

theorem processStep_placeScripts (c : Collab) (m : ResourceName → Int)
    (st : StepLoopState) (i : Nat) (s : Step) :
    (processStep c m st i s).placeScripts
      = (st.placeScripts || !(s.script == "")) := by
  simp only [processStep, transformStep_name]
  split_ifs <;> simp_all

theorem runSteps_placeScripts (c : Collab) (m : ResourceName → Int) :
    ∀ (ss : List Step) (i : Nat) (st : StepLoopState),
      (runSteps c m ss i st).placeScripts
        = (st.placeScripts || ss.any (fun s => !(s.script == ""))) := by
  intro ss
  induction ss with
  | nil => intro i st; simp [runSteps]
  | cons s rest ih =>
    intro i st
    simp only [runSteps]
    rw [ih, processStep_placeScripts]
    simp [Bool.or_assoc]

theorem runSteps_initNames (c : Collab) (m : ResourceName → Int) :
    ∀ (ss : List Step) (i : Nat) (st : StepLoopState),
      (runSteps c m ss i st).initContainers.map (fun ctr => ctr.name)
        = st.initContainers.map (fun ctr => ctr.name)
          ++ List.replicate (reclassifiedCount ss i) entrypointCarrierName := by
  intro ss
  induction ss with
  | nil => intro i st; simp [runSteps, reclassifiedCount]
  | cons s rest ih =>
    intro i st
    simp only [runSteps, reclassifiedCount]
    rw [ih, processStep_initContainers]
    by_cases h : stepPodName s i = entrypointCarrierName
    · rw [if_pos h, if_pos h, List.map_append, List.append_assoc]
      have hname : ([(transformStep c i s).container].map (fun ctr => ctr.name))
          = [entrypointCarrierName] := by
        simp [transformStep_name, h]
      rw [hname]
      have : (1 + reclassifiedCount rest (i + 1))
          = reclassifiedCount rest (i + 1) + 1 := by omega
      rw [this, List.replicate_succ]
      simp
    · rw [if_neg h, if_neg h]
      simp

theorem credsInit_names (copt : Option Container) :
    (credsInitContainers copt).map (fun ctr => ctr.name)
      = (copt.map (fun ctr => ctr.name)).toList := by
  cases copt <;> rfl

theorem workingDir_names (w : Option Container) :
    (workingDirContainers w).map (fun ctr => ctr.name)
      = (w.map (fun ctr => ctr.name)).toList := by
  cases w <;> rfl

theorem MakePod_success (c : Collab) (tr : TaskRun) (ts : TaskSpec)
    (copt : Option Container) (sv : List Volume) (pod : Pod) (err : Option String)
    (hc : c.credsInit = .ok (copt, sv))
    (h : MakePod c tr ts = (some pod, err)) :
    pod.initContainers = makePodInitContainers c ts copt ∧
    pod.volumes = makePodVolumes c tr ts copt sv := by
  simp only [MakePod, hc] at h
  rcases hv : c.validateVolumes (makePodVolumes c tr ts copt sv) with _ | e
  case some => rw [hv] at h; simp at h
  rw [hv] at h
  rcases hr : c.randBytes with e | g
  case error => rw [hr] at h; simp at h
  rw [hr] at h
  rcases hm : c.mergeStepTemplate (makePodLoop c ts copt).podSteps with e | merged
  case error => rw [hm] at h; simp at h
  rw [hm] at h
  simp only [Prod.mk.injEq, Option.some.injEq] at h
  obtain ⟨h1, _⟩ := h
  rw [← h1]
  exact ⟨rfl, rfl⟩

/-- Claim C3 (amended): the output init containers appear in the order
credentials-init (if present), working-dir-init (if present), then every step
reclassified as the entrypoint-carrier init container (in declaration order),
and only then the script-placement init container (if any step has a script)
— the script-placement container comes after the reclassified steps, not
before them. -/
theorem c3_init_container_order (c : Collab) (tr : TaskRun) (ts : TaskSpec)
    (copt : Option Container) (sv : List Volume) (pod : Pod) (err : Option String)
    (hc : c.credsInit = .ok (copt, sv))
    (h : MakePod c tr ts = (some pod, err)) :
    pod.initContainers.map (fun ctr => ctr.name) =
      (copt.map (fun ctr => ctr.name)).toList
      ++ (c.workingDirInit.map (fun ctr => ctr.name)).toList
      ++ List.replicate (reclassifiedCount ts.steps 0) entrypointCarrierName
      ++ (if ts.steps.any (fun s => !(s.script == ""))
          then [c.placeScriptsCtrName] else []) := by
  obtain ⟨hinit, _⟩ := MakePod_success c tr ts copt sv pod err hc h
  have hflag : (makePodLoop c ts copt).placeScripts
      = ts.steps.any (fun s => !(s.script == "")) := by
    rw [makePodLoop, runSteps_placeScripts]
    simp
  have hnames : (makePodLoop c ts copt).initContainers.map (fun ctr => ctr.name)
      = (copt.map (fun ctr => ctr.name)).toList
        ++ (c.workingDirInit.map (fun ctr => ctr.name)).toList
        ++ List.replicate (reclassifiedCount ts.steps 0) entrypointCarrierName := by
    rw [makePodLoop, runSteps_initNames]
    show (credsInitContainers copt ++ workingDirContainers c.workingDirInit).map
        (fun ctr => ctr.name) ++ _ = _
    rw [List.map_append, credsInit_names, workingDir_names, List.append_assoc]
  rw [hinit, makePodInitContainers]
  by_cases hf : (makePodLoop c ts copt).placeScripts
  · rw [if_pos hf, List.map_append, hnames, ← hflag, if_pos hf]
    simp [placeScriptsContainer, List.append_assoc]
  · rw [if_neg hf, hnames, ← hflag, if_neg hf]
    simp [List.append_assoc]

/-- Claim C3, counterexample: with one step renamed to the entrypoint-carrier
name and another step carrying a script, the reclassified step precedes the
script-placement init container, contradicting the claimed order
(script-placement before reclassified steps). -/
theorem c3_counterexample :
    (MakePod c3demoCollab c3demoTaskRun c3demoTaskSpec).1.map
        (fun p => p.initContainers.map (fun ctr => ctr.name))
      = some ["step-place-tools", "place-scripts-xxxxx"] ∧
    (["step-place-tools", "place-scripts-xxxxx"] : List String)
      ≠ ["place-scripts-xxxxx", "step-place-tools"] :=
  ⟨rfl, by decide⟩

/-- Claim C3, witness: the order theorem at the concrete demo unit. -/
theorem c3_witness :
    c3demoPod.initContainers.map (fun ctr => ctr.name)
      = ["step-place-tools", "place-scripts-xxxxx"] :=
  (c3_init_container_order c3demoCollab c3demoTaskRun c3demoTaskSpec none []
    c3demoPod none rfl rfl).trans (by decide)

/-- Claim C5: the output unit carries exactly one script-placement init
container (counted by its generated name) and exactly one script-placement
volume when some step has non-empty inline script text, and none of either
when no step has a script. -/
theorem c5_scripts_presence (c : Collab) (tr : TaskRun) (ts : TaskSpec)
    (copt : Option Container) (sv : List Volume) (pod : Pod) (err : Option String)
    (hc : c.credsInit = .ok (copt, sv))
    (h : MakePod c tr ts = (some pod, err))
    (hsv : scriptsVolume ∉ sv) (htv : scriptsVolume ∉ ts.volumes)
    (hpv : scriptsVolume ∉ tr.podTemplateVolumes)
    (hcn : ∀ ctr, copt = some ctr → ctr.name ≠ c.placeScriptsCtrName)
    (hwn : ∀ ctr, c.workingDirInit = some ctr → ctr.name ≠ c.placeScriptsCtrName)
    (hen : entrypointCarrierName ≠ c.placeScriptsCtrName) :
    ((∃ s ∈ ts.steps, s.script ≠ "") →
      (pod.initContainers.map (fun ctr => ctr.name)).count c.placeScriptsCtrName = 1 ∧
      pod.volumes.count scriptsVolume = 1) ∧
    ((∀ s ∈ ts.steps, s.script = "") →
      (pod.initContainers.map (fun ctr => ctr.name)).count c.placeScriptsCtrName = 0 ∧
      pod.volumes.count scriptsVolume = 0) := by
  obtain ⟨_, hvol⟩ := MakePod_success c tr ts copt sv pod err hc h
  have hnames := c3_init_container_order c tr ts copt sv pod err hc h
  have hflag : (makePodLoop c ts copt).placeScripts
      = ts.steps.any (fun s => !(s.script == "")) := by
    rw [makePodLoop, runSteps_placeScripts]
    simp
  -- count of the place-scripts name among the non-tail parts is zero
  have hcredsCount : ((copt.map (fun ctr => ctr.name)).toList).count
      c.placeScriptsCtrName = 0 := by
    rcases hcopt : copt with _ | ctr
    · rfl
    · rw [List.count_eq_zero]
      intro hcontr
      simp at hcontr
      exact hcn ctr hcopt hcontr.symm
  have hwdCount : ((c.workingDirInit.map (fun ctr => ctr.name)).toList).count
      c.placeScriptsCtrName = 0 := by
    rcases hw : c.workingDirInit with _ | ctr
    · rfl
    · rw [List.count_eq_zero]
      intro hcontr
      simp at hcontr
      exact hwn ctr hw hcontr.symm
  have hrepCount : (List.replicate (reclassifiedCount ts.steps 0)
      entrypointCarrierName).count c.placeScriptsCtrName = 0 := by
    rw [List.count_replicate]
    simp [hen]
  have hvolCount0 : (credsVolumes copt sv ++ ts.volumes ++ tr.podTemplateVolumes
      ++ implicitVolumes).count scriptsVolume = 0 := by
    have hcv : (credsVolumes copt sv).count scriptsVolume = 0 := by
      rcases copt with _ | ctr
      · rfl
      · rw [List.count_eq_zero]; exact hsv
    rw [List.count_append, List.count_append, List.count_append, hcv,
      List.count_eq_zero.mpr htv, List.count_eq_zero.mpr hpv,
      List.count_eq_zero.mpr (by decide : scriptsVolume ∉ implicitVolumes)]
  constructor
  · intro ⟨s, hs, hscript⟩
    have hany : ts.steps.any (fun s => !(s.script == "")) = true := by
      rw [List.any_eq_true]
      exact ⟨s, hs, by simpa using hscript⟩
    constructor
    · rw [hnames, if_pos hany]
      rw [List.count_append, List.count_append, List.count_append,
        hcredsCount, hwdCount, hrepCount]
      simp
    · rw [hvol, makePodVolumes, hflag]
      rw [if_pos hany, List.count_append, hvolCount0]
      simp
  · intro hnone
    have hany : ts.steps.any (fun s => !(s.script == "")) = false := by
      rw [List.any_eq_false]
      intro s hs
      simp [hnone s hs]
    constructor
    · rw [hnames, hany]
      simp only [Bool.false_eq_true, if_false, List.append_nil]
      rw [List.count_append, List.count_append,
        hcredsCount, hwdCount, hrepCount]
    · rw [hvol, makePodVolumes, hflag, hany]
      simp only [Bool.false_eq_true, if_false]
      exact hvolCount0

/-- Claim C5, witness: the presence theorem at a concrete unit with one
script-bearing step — exactly one place-scripts init container and exactly one
place-scripts volume. -/
theorem c5_witness :
    (c5demoPod.initContainers.map (fun ctr => ctr.name)).count
        c5demoCollab.placeScriptsCtrName = 1 ∧
    c5demoPod.volumes.count scriptsVolume = 1 :=
  (c5_scripts_presence c5demoCollab c5demoTaskRun c5demoTaskSpec none []
    c5demoPod none rfl rfl (by decide) (by decide) (by decide)
    (fun ctr hctr => Option.noConfusion hctr)
    (fun ctr hctr => Option.noConfusion hctr)
    (by decide)).1
    ⟨{ container := { name := "a" }, script := "echo hi" }, by decide, by decide⟩

end PipelinePod
